import Mathlib

/-!
Verification of `packages/metro-file-map/src/HasteFS.js`: an in-memory index
over a snapshot of a project's file tree, mapping canonical root-relative
paths to fixed-shape metadata records.

The JavaScript class and its methods are shallowly embedded as pure Lean
functions over an explicit `HasteFS` state.  The JS `Map` becomes an
association list in insertion order; JS `undefined`-able record fields
become `Option`; a method that throws becomes `Except`.
-/

/-! ## String helpers

Executable character-level models of the JS string operations used by the
source (`startsWith`, `substr`, `split`, `includes`, global single-character
`replace`).  They are written by structural recursion on the character list
so that every closed application reduces inside the kernel. -/

/-- JS `s.startsWith(pre)`. -/
def strStartsWith (s pre : String) : Bool :=
  pre.toList.isPrefixOf s.toList

/-- JS `s.substr(n)`: drop the first `n` characters. -/
def strDrop (s : String) (n : Nat) : String :=
  String.mk (s.toList.drop n)

/-- Helper for `splitOnChar`: accumulates the current segment reversed. -/
def splitOnCharAux (c : Char) : List Char → List Char → List String
  | [], acc => [String.mk acc.reverse]
  | x :: xs, acc =>
    if x = c then String.mk acc.reverse :: splitOnCharAux c xs []
    else splitOnCharAux c xs (x :: acc)

/-- JS `s.split(c)` for a one-character separator `c`. -/
def splitOnChar (c : Char) (s : String) : List String :=
  splitOnCharAux c s.toList []

/-- JS `s.includes(c)` for a one-character needle. -/
def containsChar (s : String) (c : Char) : Bool :=
  s.toList.contains c

/-- JS `s.replace(/a/g, b)` for one-character pattern and replacement. -/
def replaceEachChar (a b : Char) (s : String) : String :=
  String.mk (s.toList.map fun ch => if ch = a then b else ch)

/-- Join a list of segments with a separator (JS `Array.prototype.join`). -/
def joinWith (sep : String) : List String → String
  | [] => ""
  | [x] => x
  | x :: xs => x ++ sep ++ joinWith sep xs

/-! ## Path utility model

Modelled from the spec: the repository files `lib/fast_path.js` and
`constants.js` and the node `path` module are external to `src/`; §4.1 and
§6 of the spec describe them (absolute-path detection, fast relative-path
computation assumed-under-root with a general fallback, absolute-path
resolution from a root and a relative path, `.`/`..` resolution).  The
model fixes the posix separator convention. -/

/-- Modelled from the spec: the platform path separator (posix form). -/
def pathSep : String := "/"

/-- Modelled from the spec: the platform path separator as a character. -/
def pathSepChar : Char := '/'

/-- Modelled from the spec: node `path.isAbsolute` (posix). -/
def isAbsolute (p : String) : Bool :=
  strStartsWith p pathSep

/-- One step of `.`/`..` segment resolution.  `allowDotDot` keeps leading
`..` segments (relative-path normalization); when false they are dropped at
the root (absolute-path resolution).  The stack is kept reversed. -/
def normSegsStep (allowDotDot : Bool) (stack : List String) (seg : String) : List String :=
  if seg = "" || seg = "." then stack
  else if seg = ".." then
    match stack with
    | [] => if allowDotDot then [".."] else []
    | top :: rest => if top = ".." then seg :: stack else rest
  else seg :: stack

/-- Modelled from the spec: node `path.normalize` (posix) on paths without a
trailing separator — resolve `.`/`..` segments and collapse separators;
leading `..` segments of a relative path are kept. -/
def pathNormalize (p : String) : String :=
  let abs := isAbsolute p
  let stack := ((splitOnChar pathSepChar p).foldl (normSegsStep (!abs)) []).reverse
  if abs then pathSep ++ joinWith pathSep stack
  else if stack = [] then "." else joinWith pathSep stack

/-- Modelled from the spec: node `path.resolve(root, p)` for an absolute
`root` — join and resolve to an absolute path, clamping `..` at the root. -/
def pathResolve (root p : String) : String :=
  let combined := if isAbsolute p then p else root ++ pathSep ++ p
  let stack := ((splitOnChar pathSepChar combined).foldl (normSegsStep false) []).reverse
  pathSep ++ joinWith pathSep stack

/-- Length of the common segment prefix of two segment lists. -/
def commonPrefixLen : List String → List String → Nat
  | x :: xs, y :: ys => if x = y then commonPrefixLen xs ys + 1 else 0
  | _, _ => 0

/-- Modelled from the spec: node `path.relative(fromP, toP)` for absolute
arguments — general relative-path computation, which may produce leading
`..` segments for targets outside `fromP`, and the empty string when both
denote the same path. -/
def pathRelative (fromP toP : String) : String :=
  let f := ((splitOnChar pathSepChar fromP).foldl (normSegsStep false) []).reverse
  let t := ((splitOnChar pathSepChar toP).foldl (normSegsStep false) []).reverse
  let c := commonPrefixLen f t
  joinWith pathSep (List.replicate (f.length - c) ".." ++ t.drop c)

/-- Modelled from the spec: `fast_path.relative(rootDir, filename)` — fast
path strips the `rootDir + sep` prefix when `filename` is directly under
`rootDir`, otherwise falls back to the general relative-path computation. -/
def fastRelative (rootDir filename : String) : String :=
  if strStartsWith filename (rootDir ++ pathSep) then
    strDrop filename (rootDir.length + 1)
  else pathRelative rootDir filename

/-- Modelled from the spec: `fast_path.resolve(rootDir, normalPath)` —
absolute-path resolution of a canonical key against the root directory. -/
def fastResolve (rootDir normalPath : String) : String :=
  if normalPath = "." then rootDir
  else if strStartsWith normalPath (".." ++ pathSep) then pathResolve rootDir normalPath
  else rootDir ++ pathSep ++ normalPath

/-! ## Data model -/

/-- Modelled from the spec: `H.DEPENDENCY_DELIM` from `constants.js` (not
under `src/`) — the private one-character delimiter joining dependency
specifiers (§3, §6). -/
def DEPENDENCY_DELIM : Char := Char.ofNat 0

/-- The value stored in the `H.SYMLINK` slot of a record: `0` marks a
regular file; a nonzero number or a string (the link target) marks a
symbolic link. -/
inductive SymlinkField where
  | num : Int → SymlinkField
  | str : String → SymlinkField
deriving DecidableEq, Repr

/-- JS strict equality `fileMetadata[H.SYMLINK] === 0`. -/
def symlinkIsZero : SymlinkField → Bool
  | .num n => n == 0
  | .str _ => false

/-- Modelled from the spec: the `FileMetaData` tuple, with the record-field
layout of `constants.js` (not under `src/`) given by §3's table.  Tuple
slots become named fields; a slot holding JS `undefined` becomes `none`.
`mtime` is `none` when the slot does not hold a number. -/
structure FileMetaData where
  id : Option String
  mtime : Option Int
  size : Option Int
  dependencies : Option String
  sha1 : Option String
  symlink : SymlinkField
deriving DecidableEq, Repr

/-- `FileData`: the JS `Map` of canonical key to record, as an association
list in insertion order. -/
abbrev FileData := List (String × FileMetaData)

/-- `Map.prototype.get`: first binding of the key, if any. -/
def mapGet : FileData → String → Option FileMetaData
  | [], _ => none
  | (k', v') :: rest, k => if k' = k then some v' else mapGet rest k

/-- `Map.prototype.set`: overwrite the binding in place, else append. -/
def mapSet : FileData → String → FileMetaData → FileData
  | [], k, v => [(k, v)]
  | (k', v') :: rest, k, v =>
    if k' = k then (k, v) :: rest else (k', v') :: mapSet rest k v

/-- `Map.prototype.delete`: drop the binding of the key.  JS `Map` keys are
unique, so removing every entry with the key models deleting the one
entry. -/
def mapDelete (m : FileData) (k : String) : FileData :=
  m.filter (fun e => !(e.1 == k))

/-- The `HasteFS` instance state: the private `#rootDir` and `#files`
fields set by the constructor. -/
structure HasteFS where
  rootDir : String
  files : FileData
deriving DecidableEq

/-! ## Operations (translated from `HasteFS.js`) -/

/-- `_normalizePath`: absolute paths are made relative to the root
directory, relative paths get `.`/`..` resolution. -/
def normalizePath (rootDir relativeOrAbsolutePath : String) : String :=
  if isAbsolute relativeOrAbsolutePath then fastRelative rootDir relativeOrAbsolutePath
  else pathNormalize relativeOrAbsolutePath

/-- `remove`: normalize, and if a record is present at the normalized key,
delete it and return it; otherwise return `null` with the map unchanged. -/
def remove (fs : HasteFS) (filePath : String) : Option FileMetaData × HasteFS :=
  let normalPath := normalizePath fs.rootDir filePath
  match mapGet fs.files normalPath with
  | none => (none, fs)
  | some fileMetadata => (some fileMetadata, { fs with files := mapDelete fs.files normalPath })

/-- `bulkAddOrModify`: insert or overwrite each entry without normalizing
its key. -/
def bulkAddOrModify (fs : HasteFS) (changedFiles : FileData) : HasteFS :=
  changedFiles.foldl (fun acc e => { acc with files := mapSet acc.files e.1 e.2 }) fs

/-- `addOrModify`: insert or overwrite the record at the normalized key. -/
def addOrModify (fs : HasteFS) (filePath : String) (metadata : FileMetaData) : HasteFS :=
  { fs with files := mapSet fs.files (normalizePath fs.rootDir filePath) metadata }

/-- `[...v]`: the fresh array copy of a record taken by
`getSerializableSnapshot`. -/
def copyFileMetaData (v : FileMetaData) : FileMetaData :=
  ⟨v.id, v.mtime, v.size, v.dependencies, v.sha1, v.symlink⟩

/-- `getSerializableSnapshot`: a new map holding an array copy of every
record. -/
def getSerializableSnapshot (fs : HasteFS) : FileData :=
  fs.files.map (fun e => (e.1, copyFileMetaData e.2))

/-- `_getFileData`: two-tier lookup — direct lookup with the path exactly
as given, then lookup at the normalized key on a miss. -/
def getFileData (fs : HasteFS) (filePath : String) : Option FileMetaData :=
  match mapGet fs.files filePath with
  | some optimisticMetadata => some optimisticMetadata
  | none => mapGet fs.files (normalizePath fs.rootDir filePath)

/-- `getModuleName`: the record's `H.ID` slot, `null` when the file is
unknown or the slot is `undefined`. -/
def getModuleName (fs : HasteFS) (file : String) : Option String :=
  (getFileData fs file).bind (·.id)

/-- `getSize`: the record's `H.SIZE` slot, `null` when the file is unknown
or the slot is `undefined`. -/
def getSize (fs : HasteFS) (file : String) : Option Int :=
  (getFileData fs file).bind (·.size)

/-- The dependency list derived from a record: JS truthiness means both an
`undefined` slot and the empty string yield the empty array; otherwise the
stored string splits on the delimiter. -/
def recordDependencies (fileMetadata : FileMetaData) : List String :=
  match fileMetadata.dependencies with
  | none => []
  | some s => if s = "" then [] else splitOnChar DEPENDENCY_DELIM s

/-- `getDependencies`: `null` for an unknown file, else the record's
dependency list. -/
def getDependencies (fs : HasteFS) (file : String) : Option (List String) :=
  (getFileData fs file).map recordDependencies

/-- `getSha1`: the record's `H.SHA1` slot, `null` when the file is unknown
or the slot is `undefined`. -/
def getSha1 (fs : HasteFS) (file : String) : Option String :=
  (getFileData fs file).bind (·.sha1)

/-- `exists`: whether the two-tier lookup finds a record. -/
def existsFile (fs : HasteFS) (file : String) : Bool :=
  (getFileData fs file).isSome

/-- `getFileIterator`: the canonical keys in map iteration order. -/
def getFileIterator (fs : HasteFS) : List String :=
  fs.files.map (·.1)

/-- `getAbsoluteFileIterator`: each key resolved against the root
directory, in map iteration order. -/
def getAbsoluteFileIterator (fs : HasteFS) : List String :=
  (getFileIterator fs).map (fastResolve fs.rootDir)

/-- The `FileStats` object returned by `linkStats`. -/
structure FileStats where
  fileType : String
  modifiedTime : Int
deriving DecidableEq, Repr

/-- The `linkStats` computation on a found record: `fileType` is `'f'`
exactly when the symlink slot is strictly `0`; the `invariant` call throws
when the mtime slot is not a number. -/
def recordLinkStats (fileMetadata : FileMetaData) : Except String FileStats :=
  let fileType := if symlinkIsZero fileMetadata.symlink then "f" else "l"
  match fileMetadata.mtime with
  | some modifiedTime => Except.ok ⟨fileType, modifiedTime⟩
  | none => Except.error "File in HasteFS missing modified time"

/-- `linkStats`: `null` for an unknown file; otherwise the record's stats,
with a thrown invariant violation modelled as `Except.error`. -/
def linkStats (fs : HasteFS) (file : String) : Except String (Option FileStats) :=
  match getFileData fs file with
  | none => Except.ok none
  | some fileMetadata => Except.map some (recordLinkStats fileMetadata)

/-- `matchFilesWithContext`: iterate the absolute paths; skip paths whose
relative form under the query root is empty or starts with `..`; in a
non-recursive search skip relative forms containing a separator; keep the
paths whose `./`-prefixed, slash-normalized relative form passes the
filter.  (`fastRelative root file` plays the loop's `filePath`.) -/
def matchFilesWithContext (fs : HasteFS) (root : String) (recursive : Bool)
    (filter : String → Bool) : List String :=
  (getAbsoluteFileIterator fs).foldl
    (fun files file =>
      if !((fastRelative root file != "") && !(strStartsWith (fastRelative root file) "..")) then
        files
      else if !recursive && containsChar (fastRelative root file) pathSepChar then
        files
      else if filter ("./" ++ replaceEachChar '\\' '/' (fastRelative root file)) then
        files ++ [file]
      else files)
    []

/-- The result set exactly as claim C6 states it: stage 2 keeps every path
whose relative form does not start with a parent-directory marker (no
non-emptiness requirement). -/
def matchFilesWithContextClaim (fs : HasteFS) (root : String) (recursive : Bool)
    (filter : String → Bool) : List String :=
  (getAbsoluteFileIterator fs).filter
    (fun file =>
      !(strStartsWith (fastRelative root file) "..")
      && (recursive || !(containsChar (fastRelative root file) pathSepChar))
      && filter ("./" ++ replaceEachChar '\\' '/' (fastRelative root file)))

/-- The membership predicate `matchFilesWithContext` actually decides: the
claim's predicate strengthened with a non-empty relative form. -/
def contextPred (root : String) (recursive : Bool) (filter : String → Bool)
    (file : String) : Bool :=
  (fastRelative root file != "")
  && !(strStartsWith (fastRelative root file) "..")
  && (recursive || !(containsChar (fastRelative root file) pathSepChar))
  && filter ("./" ++ replaceEachChar '\\' '/' (fastRelative root file))

/-- `getRealPath`: throws unconditionally; the state is returned untouched
to record that the file map is unchanged. -/
def getRealPath (fs : HasteFS) (_filePath : String) : Except String String × HasteFS :=
  (Except.error "HasteFS.getRealPath() is not implemented.", fs)

/-- The file-map invariant of spec §3: every stored key is canonical, i.e.
a fixed point of `_normalizePath`. -/
abbrev CanonicalKeys (fs : HasteFS) : Prop :=
  ∀ e ∈ fs.files, normalizePath fs.rootDir e.1 = e.1

/-! ## Concrete instances used by witnesses and counterexamples -/

/-- An empty index rooted at `/proj`. -/
def fsEmpty : HasteFS := ⟨"/proj", []⟩

/-- A record with every slot populated and two joined dependencies. -/
def recW1 : FileMetaData :=
  ⟨some "W1", some 10, some 5, some ("b.js" ++ String.mk [DEPENDENCY_DELIM] ++ "c.js"),
   some "abc1", .num 0⟩

/-- A plain regular-file record. -/
def recW2 : FileMetaData := ⟨some "a", some 3, some 7, none, some "ff", .num 0⟩

/-- An index rooted at `/proj` holding one canonical key. -/
def fsC2w : HasteFS := ⟨"/proj", [("a.js", recW2)]⟩

/-- An index rooted at `/proj` holding the canonical key `src/a.js`. -/
def fsC3w : HasteFS := ⟨"/proj", [("src/a.js", recW2)]⟩

/-- A record with no id, no dependency field and no sha1. -/
def recW4 : FileMetaData := ⟨none, some 1, some 2, none, none, .num 0⟩

/-- An index holding a record that lacks id, dependencies and sha1. -/
def fsC4w : HasteFS := ⟨"/r", [("a.js", recW4)]⟩

/-- A symlink record whose mtime slot holds no number. -/
def recW5 : FileMetaData := ⟨none, none, some 2, none, none, .num 1⟩

/-- An index holding a record with a missing mtime. -/
def fsC5w : HasteFS := ⟨"/r", [("s.js", recW5)]⟩

/-- An index rooted at `/p` whose single file has absolute path `/p/a`. -/
def fsC6 : HasteFS := ⟨"/p", [("a", recW4)]⟩

/-- A record stored under a non-canonical key below. -/
def recC8 : FileMetaData := ⟨some "m", some 2, some 3, none, none, .num 0⟩

/-- An index holding the non-canonical key `./a.js`, reached through
`bulkAddOrModify`, which does not normalize keys. -/
def fsC8 : HasteFS := bulkAddOrModify ⟨"/p", []⟩ [("./a.js", recC8)]

/-- An index holding one canonical key, for the two-tier lookup witness. -/
def fsC8b : HasteFS := ⟨"/q", [("b.js", recC8)]⟩

/-- A record whose id and sha1 slots are `undefined`. -/
def recC10 : FileMetaData := ⟨none, some 4, some 9, none, none, .num 0⟩

/-- An index holding a known file that lacks id and sha1. -/
def fsC10 : HasteFS := ⟨"/w", [("a.js", recC10)]⟩

/-! ## Map lemmas -/

theorem mapGet_mem {m : FileData} {k : String} {v : FileMetaData} :
    mapGet m k = some v → (k, v) ∈ m := by
  induction m with
  | nil => intro h; simp [mapGet] at h
  | cons e rest ih =>
    obtain ⟨k', v'⟩ := e
    intro h
    by_cases hk : k' = k
    · subst hk
      simp [mapGet] at h
      subst h
      exact List.mem_cons_self _ _
    · simp only [mapGet, if_neg hk] at h
      exact List.mem_cons_of_mem _ (ih h)

theorem mapGet_mapSet_self (m : FileData) (k : String) (v : FileMetaData) :
    mapGet (mapSet m k v) k = some v := by
  induction m with
  | nil => simp [mapSet, mapGet]
  | cons e rest ih =>
    obtain ⟨k', v'⟩ := e
    by_cases hk : k' = k
    · simp [mapSet, hk, mapGet]
    · simp [mapSet, hk, mapGet, ih]

theorem mapGet_mapSet_ne (m : FileData) (k k' : String) (v : FileMetaData)
    (h : k' ≠ k) : mapGet (mapSet m k v) k' = mapGet m k' := by
  induction m with
  | nil => simp [mapSet, mapGet, Ne.symm h]
  | cons e rest ih =>
    obtain ⟨k'', v''⟩ := e
    by_cases hk : k'' = k
    · subst hk
      simp [mapSet, mapGet, Ne.symm h]
    · simp [mapSet, mapGet, hk, ih]

theorem mapGet_mapDelete_self (m : FileData) (k : String) :
    mapGet (mapDelete m k) k = none := by
  induction m with
  | nil => rfl
  | cons e rest ih =>
    obtain ⟨k', v'⟩ := e
    by_cases hk : k' = k
    · simpa [mapDelete, List.filter_cons, hk] using ih
    · simpa [mapDelete, List.filter_cons, hk, mapGet] using ih

theorem mapGet_mapDelete_ne (m : FileData) (k k' : String) (h : k' ≠ k) :
    mapGet (mapDelete m k) k' = mapGet m k' := by
  induction m with
  | nil => rfl
  | cons e rest ih =>
    obtain ⟨k'', v''⟩ := e
    by_cases hk : k'' = k
    · subst hk
      simpa [mapDelete, List.filter_cons, mapGet, Ne.symm h] using ih
    · simp [mapDelete, List.filter_cons, mapGet, hk] at ih ⊢
      by_cases hq : k'' = k'
      · simp [hq]
      · simp [hq, ih]

/-! ## Lookup lemmas -/

/-- Under the canonical-keys invariant the two-tier lookup of
`_getFileData` agrees with the single lookup at the normalized key. -/
theorem getFileData_canonical (fs : HasteFS) (p : String) (hc : CanonicalKeys fs) :
    getFileData fs p = mapGet fs.files (normalizePath fs.rootDir p) := by
  cases h : mapGet fs.files p with
  | none => simp [getFileData, h]
  | some v =>
    have hcan : normalizePath fs.rootDir p = p := hc (p, v) (mapGet_mem h)
    simp [getFileData, h, hcan]

/-- After `addOrModify fs P R`, the two-tier lookup at `P` finds `R`. -/
theorem getFileData_addOrModify (fs : HasteFS) (P : String) (R : FileMetaData)
    (hc : CanonicalKeys fs) :
    getFileData (addOrModify fs P R) P = some R := by
  by_cases hP : P = normalizePath fs.rootDir P
  · have hget : mapGet (mapSet fs.files (normalizePath fs.rootDir P) R) P = some R := by
      rw [← hP]
      exact mapGet_mapSet_self fs.files P R
    simp [getFileData, addOrModify, hget]
  · have hne : mapGet (mapSet fs.files (normalizePath fs.rootDir P) R) P = mapGet fs.files P :=
      mapGet_mapSet_ne fs.files (normalizePath fs.rootDir P) P R hP
    cases hgp : mapGet fs.files P with
    | some v => exact absurd (hc (P, v) (mapGet_mem hgp)) (Ne.symm hP)
    | none => simp [getFileData, addOrModify, hne, hgp, mapGet_mapSet_self]

/-- A fold that conditionally pushes elements is a filter. -/
theorem foldl_push_filter {α : Type} (p : α → Bool) (step : List α → α → List α)
    (hstep : ∀ acc x, step acc x = if p x then acc ++ [x] else acc) :
    ∀ (l acc : List α), l.foldl step acc = acc ++ l.filter p := by
  intro l
  induction l with
  | nil => intro acc; simp
  | cons x xs ih =>
    intro acc
    rw [List.foldl_cons, hstep, List.filter_cons]
    by_cases h : p x
    · simp [h, ih]
    · simp [h, ih]

/-- Copying each record of a file map is the identity. -/
theorem snapshot_map_eq (l : FileData) :
    l.map (fun e => (e.1, copyFileMetaData e.2)) = l := by
  induction l with
  | nil => rfl
  | cons e rest ih =>
    simp only [List.map_cons, ih]
    rfl

/-! ## Claim theorems -/

/-- Claim C1: immediately after `addOrModify(P, R)`, `exists(P)` is true and
every point query for `P` (`getModuleName`, `getSize`, `getSha1`,
`getDependencies`, `linkStats`) returns the value derived from exactly the
fields of `R`, assuming all pre-existing keys in the map are canonical. -/
theorem addOrModify_point_queries (fs : HasteFS) (P : String) (R : FileMetaData)
    (hc : CanonicalKeys fs) :
    existsFile (addOrModify fs P R) P = true
    ∧ getModuleName (addOrModify fs P R) P = R.id
    ∧ getSize (addOrModify fs P R) P = R.size
    ∧ getSha1 (addOrModify fs P R) P = R.sha1
    ∧ getDependencies (addOrModify fs P R) P = some (recordDependencies R)
    ∧ linkStats (addOrModify fs P R) P = Except.map some (recordLinkStats R) := by
  have h := getFileData_addOrModify fs P R hc
  refine ⟨?_, ?_, ?_, ?_, ?_, ?_⟩ <;>
    simp [existsFile, getModuleName, getSize, getSha1, getDependencies, linkStats, h]

/-- Witness for C1 at an empty index, an absolute path and a full record. -/
theorem addOrModify_point_queries_witness :
    existsFile (addOrModify fsEmpty "/proj/src/a.js" recW1) "/proj/src/a.js" = true
    ∧ getDependencies (addOrModify fsEmpty "/proj/src/a.js" recW1) "/proj/src/a.js"
        = some (recordDependencies recW1) := by
  have h := addOrModify_point_queries fsEmpty "/proj/src/a.js" recW1 (by decide)
  exact ⟨h.1, h.2.2.2.2.1⟩

/-- Claim C2: under the canonical-keys invariant, when the normalized path
is present the first `remove` returns the stored record, `exists` becomes
false immediately after, and a second `remove` returns null leaving the map
unchanged; when it is absent, `remove` returns null and the map is
unchanged. -/
theorem remove_once_then_null (fs : HasteFS) (P : String) (hc : CanonicalKeys fs) :
    (∀ r, mapGet fs.files (normalizePath fs.rootDir P) = some r →
        (remove fs P).1 = some r
        ∧ existsFile (remove fs P).2 P = false
        ∧ remove (remove fs P).2 P = (none, (remove fs P).2))
    ∧ (mapGet fs.files (normalizePath fs.rootDir P) = none →
        remove fs P = (none, fs)) := by
  constructor
  · intro r hr
    have hrem : remove fs P
        = (some r, ⟨fs.rootDir, mapDelete fs.files (normalizePath fs.rootDir P)⟩) := by
      simp [remove, hr]
    have h1 : mapGet (mapDelete fs.files (normalizePath fs.rootDir P)) P = none := by
      by_cases hP : P = normalizePath fs.rootDir P
      · rw [← hP]
        exact mapGet_mapDelete_self fs.files P
      · rw [mapGet_mapDelete_ne fs.files _ P hP]
        cases hg : mapGet fs.files P with
        | none => rfl
        | some v => exact absurd (hc (P, v) (mapGet_mem hg)) (Ne.symm hP)
    have h2 : mapGet (mapDelete fs.files (normalizePath fs.rootDir P))
        (normalizePath fs.rootDir P) = none := mapGet_mapDelete_self _ _
    refine ⟨?_, ?_, ?_⟩
    · rw [hrem]
    · rw [hrem]
      simp [existsFile, getFileData, h1, h2]
    · rw [hrem]
      simp [remove, mapGet_mapDelete_self]
  · intro h0
    simp [remove, h0]

/-- Witness for C2 on a one-entry index. -/
theorem remove_once_then_null_witness :
    (remove fsC2w "a.js").1 = some recW2
    ∧ existsFile (remove fsC2w "a.js").2 "a.js" = false := by
  have h := (remove_once_then_null fsC2w "a.js" (by decide)).1 recW2 (by decide)
  exact ⟨h.1, h.2.1⟩

/-- Claim C3: for an index rooted at `/proj` that holds the canonical key
`src/a.js`, every point query gives identical results for the absolute path
`/proj/src/a.js` and the relative path `src/a.js`. -/
theorem normalization_equivalence (fs : HasteFS) (r : FileMetaData)
    (hroot : fs.rootDir = "/proj") (hc : CanonicalKeys fs)
    (hkey : mapGet fs.files "src/a.js" = some r) :
    existsFile fs "/proj/src/a.js" = true
    ∧ existsFile fs "/proj/src/a.js" = existsFile fs "src/a.js"
    ∧ getModuleName fs "/proj/src/a.js" = getModuleName fs "src/a.js"
    ∧ getSize fs "/proj/src/a.js" = getSize fs "src/a.js"
    ∧ getSha1 fs "/proj/src/a.js" = getSha1 fs "src/a.js"
    ∧ getDependencies fs "/proj/src/a.js" = getDependencies fs "src/a.js"
    ∧ linkStats fs "/proj/src/a.js" = linkStats fs "src/a.js" := by
  have habs : normalizePath "/proj" "/proj/src/a.js" = "src/a.js" := by decide
  have hrel : normalizePath "/proj" "src/a.js" = "src/a.js" := by decide
  have e2 : getFileData fs "/proj/src/a.js" = some r := by
    rw [getFileData_canonical fs _ hc, hroot, habs]
    exact hkey
  have e3 : getFileData fs "src/a.js" = some r := by
    rw [getFileData_canonical fs _ hc, hroot, hrel]
    exact hkey
  refine ⟨?_, ?_, ?_, ?_, ?_, ?_, ?_⟩ <;>
    simp [existsFile, getModuleName, getSize, getSha1, getDependencies, linkStats, e2, e3]

/-- Witness for C3 on a concrete one-entry index rooted at `/proj`. -/
theorem normalization_equivalence_witness :
    existsFile fsC3w "/proj/src/a.js" = true
    ∧ getModuleName fsC3w "/proj/src/a.js" = getModuleName fsC3w "src/a.js" := by
  have h := normalization_equivalence fsC3w recW2 rfl (by decide) (by decide)
  exact ⟨h.1, h.2.2.1⟩

/-- Claim C4: `getDependencies(P)` is null exactly when the normalized path
is absent; a known record with no dependency field set (an `undefined` slot,
or the empty string that encodes zero joined specifiers) yields the empty
array; a known record with a non-empty stored string yields its
delimiter-split components in order, so `"b.js<DELIM>c.js"` yields
`["b.js", "c.js"]`. -/
theorem getDependencies_spec (fs : HasteFS) (P : String) (hc : CanonicalKeys fs) :
    (getDependencies fs P = none ↔ mapGet fs.files (normalizePath fs.rootDir P) = none)
    ∧ (∀ r, mapGet fs.files (normalizePath fs.rootDir P) = some r →
        (r.dependencies = none → getDependencies fs P = some [])
        ∧ (r.dependencies = some "" → getDependencies fs P = some [])
        ∧ (∀ s, r.dependencies = some s → s ≠ "" →
            getDependencies fs P = some (splitOnChar DEPENDENCY_DELIM s)))
    ∧ splitOnChar DEPENDENCY_DELIM ("b.js" ++ String.mk [DEPENDENCY_DELIM] ++ "c.js")
        = ["b.js", "c.js"] := by
  have hgd : getFileData fs P = mapGet fs.files (normalizePath fs.rootDir P) :=
    getFileData_canonical fs P hc
  refine ⟨?_, ?_, by decide⟩
  · rw [getDependencies, hgd]
    cases mapGet fs.files (normalizePath fs.rootDir P) <;> simp
  · intro r hr
    refine ⟨?_, ?_, ?_⟩
    · intro hdep
      simp [getDependencies, hgd, hr, recordDependencies, hdep]
    · intro hdep
      simp [getDependencies, hgd, hr, recordDependencies, hdep]
    · intro s hdep hs
      simp [getDependencies, hgd, hr, recordDependencies, hdep, hs]

/-- Witness for C4: a known file with no dependency field yields `[]`. -/
theorem getDependencies_spec_witness :
    getDependencies fsC4w "a.js" = some [] :=
  ((getDependencies_spec fsC4w "a.js" (by decide)).2.1 recW4 (by decide)).1 rfl

/-- Claim C5: `linkStats(P)` is null when `P` is unknown; on a found record
it pairs the record's mtime with fileType `'l'` exactly when the symlink
slot is not `0` and `'f'` when it is `0`; and on a found record whose mtime
slot holds no number it throws instead of defaulting. -/
theorem linkStats_spec (fs : HasteFS) (P : String) :
    (getFileData fs P = none → linkStats fs P = Except.ok none)
    ∧ (∀ r t, getFileData fs P = some r → r.mtime = some t →
        linkStats fs P
          = Except.ok (some ⟨if symlinkIsZero r.symlink then "f" else "l", t⟩)
        ∧ (r.symlink = SymlinkField.num 0 → linkStats fs P = Except.ok (some ⟨"f", t⟩))
        ∧ (r.symlink ≠ SymlinkField.num 0 → linkStats fs P = Except.ok (some ⟨"l", t⟩)))
    ∧ (∀ r, getFileData fs P = some r → r.mtime = none →
        linkStats fs P = Except.error "File in HasteFS missing modified time") := by
  refine ⟨?_, ?_, ?_⟩
  · intro h
    simp [linkStats, h]
  · intro r t hr ht
    refine ⟨?_, ?_, ?_⟩
    · simp [linkStats, hr, recordLinkStats, ht, Except.map]
    · intro h0
      simp [linkStats, hr, recordLinkStats, ht, h0, symlinkIsZero, Except.map]
    · intro h0
      have hz : symlinkIsZero r.symlink = false := by
        cases hsym : r.symlink with
        | num n =>
          rw [hsym] at h0
          have hn : n ≠ 0 := fun hn => h0 (by rw [hn])
          simp [symlinkIsZero, hn]
        | str s => simp [symlinkIsZero]
      simp [linkStats, hr, recordLinkStats, ht, hz, Except.map]
  · intro r hr hm
    simp [linkStats, hr, recordLinkStats, hm, Except.map]

/-- Witness for C5: a found record with a missing mtime makes `linkStats`
throw. -/
theorem linkStats_spec_witness :
    linkStats fsC5w "s.js" = Except.error "File in HasteFS missing modified time" :=
  (linkStats_spec fsC5w "s.js").2.2 recW5 (by decide) rfl

/-- Claim C6 counterexample: with the index rooted at `/p` holding the key
`a`, querying at root `/p/a` (so the one file's relative form is the empty
string) with a filter accepting everything, the code returns nothing while
the claim's stated condition — relative form not starting with a
parent-directory marker — keeps `/p/a`. -/
theorem matchFilesWithContext_claim_counterexample :
    matchFilesWithContext fsC6 "/p/a" true (fun _ => true) = []
    ∧ matchFilesWithContextClaim fsC6 "/p/a" true (fun _ => true) = ["/p/a"] := by
  decide

/-- Claim C6 as amended: `matchFilesWithContext` returns, in file-map
iteration order, exactly the absolute paths whose relative form under the
query root is non-empty, does not start with a parent-directory marker,
contains no separator when the search is non-recursive, and whose
`./`-prefixed slash-normalized form passes the filter. -/
theorem matchFilesWithContext_eq_filter (fs : HasteFS) (root : String)
    (recursive : Bool) (filter : String → Bool) :
    matchFilesWithContext fs root recursive filter
      = (getAbsoluteFileIterator fs).filter (contextPred root recursive filter) := by
  have hstep : ∀ (acc : List String) (file : String),
      (if !((fastRelative root file != "")
            && !(strStartsWith (fastRelative root file) "..")) then acc
       else if !recursive && containsChar (fastRelative root file) pathSepChar then acc
       else if filter ("./" ++ replaceEachChar '\\' '/' (fastRelative root file)) then
         acc ++ [file]
       else acc)
      = (if contextPred root recursive filter file then acc ++ [file] else acc) := by
    intro acc file
    cases h1 : (fastRelative root file != "") <;>
    cases h2 : strStartsWith (fastRelative root file) ".." <;>
    cases h3 : recursive <;>
    cases h4 : containsChar (fastRelative root file) pathSepChar <;>
    cases h5 : filter ("./" ++ replaceEachChar '\\' '/' (fastRelative root file)) <;>
    simp [contextPred, h1, h2, h3, h4, h5]
  unfold matchFilesWithContext
  exact foldl_push_filter (contextPred root recursive filter) _ hstep
    (getAbsoluteFileIterator fs) []

/-- Claim C7: the snapshot maps each key to a fresh copy of its record,
equals the original map entrywise, and an index constructed from the
snapshot with the same root directory answers every point query exactly as
the original. -/
theorem snapshot_reconstruction (fs : HasteFS) (P : String) :
    getSerializableSnapshot fs = fs.files.map (fun e => (e.1, copyFileMetaData e.2))
    ∧ getSerializableSnapshot fs = fs.files
    ∧ existsFile ⟨fs.rootDir, getSerializableSnapshot fs⟩ P = existsFile fs P
    ∧ getModuleName ⟨fs.rootDir, getSerializableSnapshot fs⟩ P = getModuleName fs P
    ∧ getSize ⟨fs.rootDir, getSerializableSnapshot fs⟩ P = getSize fs P
    ∧ getSha1 ⟨fs.rootDir, getSerializableSnapshot fs⟩ P = getSha1 fs P
    ∧ getDependencies ⟨fs.rootDir, getSerializableSnapshot fs⟩ P = getDependencies fs P
    ∧ linkStats ⟨fs.rootDir, getSerializableSnapshot fs⟩ P = linkStats fs P := by
  have h : getSerializableSnapshot fs = fs.files := snapshot_map_eq fs.files
  refine ⟨rfl, h, ?_, ?_, ?_, ?_, ?_, ?_⟩ <;> (rw [h])

/-- Claim C8 counterexample: on an index holding the non-canonical key
`./a.js` (reachable through `bulkAddOrModify`, which does not normalize),
`exists` finds the record through its direct first-tier lookup, but
`remove` — which the claim says also attempts a direct lookup first —
normalizes unconditionally, misses, returns null and leaves the map
unchanged. -/
theorem remove_skips_direct_lookup :
    mapGet fsC8.files "./a.js" = some recC8
    ∧ existsFile fsC8 "./a.js" = true
    ∧ remove fsC8 "./a.js" = (none, fsC8) := by
  decide

/-- Claim C8 as amended: the reading queries' shared lookup
(`_getFileData`) returns a directly stored record without normalizing;
`remove`'s result is instead the single lookup at the normalized key; and
under the canonical-keys invariant the two-tier lookup coincides with the
single lookup at the normalized key. -/
theorem two_tier_lookup_amended (fs : HasteFS) (p : String) :
    (∀ v, mapGet fs.files p = some v → getFileData fs p = some v)
    ∧ (remove fs p).1 = mapGet fs.files (normalizePath fs.rootDir p)
    ∧ (CanonicalKeys fs → getFileData fs p = mapGet fs.files (normalizePath fs.rootDir p)) := by
  refine ⟨?_, ?_, ?_⟩
  · intro v h
    simp [getFileData, h]
  · cases h : mapGet fs.files (normalizePath fs.rootDir p) <;> simp [remove, h]
  · intro hc
    exact getFileData_canonical fs p hc

/-- Witness for the amended C8: a direct hit on a non-canonical key, and
the two-tier/single-lookup agreement on a canonical index. -/
theorem two_tier_lookup_amended_witness :
    getFileData fsC8 "./a.js" = some recC8
    ∧ getFileData fsC8b "b.js" = mapGet fsC8b.files (normalizePath fsC8b.rootDir "b.js") := by
  exact ⟨(two_tier_lookup_amended fsC8 "./a.js").1 recC8 (by decide),
         (two_tier_lookup_amended fsC8b "b.js").2.2 (by decide)⟩

/-- Claim C9: `getRealPath` throws for every input, never returns a value,
and leaves the file map unchanged. -/
theorem getRealPath_always_fails (fs : HasteFS) (filePath : String) :
    getRealPath fs filePath
      = (Except.error "HasteFS.getRealPath() is not implemented.", fs) := rfl

/-- Claim C10: a known record with an `undefined` id (resp. sha1) makes
`getModuleName` (resp. `getSha1`) return null, exactly as for an unknown
path, while `exists` distinguishes the two cases. -/
theorem null_getters_do_not_distinguish (fs : HasteFS) (P : String) :
    (∀ r, getFileData fs P = some r → r.id = none → getModuleName fs P = none)
    ∧ (∀ r, getFileData fs P = some r → r.sha1 = none → getSha1 fs P = none)
    ∧ (getFileData fs P = none →
        getModuleName fs P = none ∧ getSha1 fs P = none ∧ existsFile fs P = false)
    ∧ (∀ r, getFileData fs P = some r → existsFile fs P = true) := by
  refine ⟨?_, ?_, ?_, ?_⟩
  · intro r hr hid
    simp [getModuleName, hr, hid]
  · intro r hr hsha
    simp [getSha1, hr, hsha]
  · intro h
    simp [getModuleName, getSha1, existsFile, h]
  · intro r hr
    simp [existsFile, hr]

/-- Witness for C10: a known file lacking an id reports null for
`getModuleName` yet true for `exists`. -/
theorem null_getters_do_not_distinguish_witness :
    getModuleName fsC10 "a.js" = none ∧ existsFile fsC10 "a.js" = true := by
  exact ⟨(null_getters_do_not_distinguish fsC10 "a.js").1 recC10 (by decide) rfl,
         (null_getters_do_not_distinguish fsC10 "a.js").2.2.2 recC10 (by decide)⟩
